import Mathlib

/-!
Verification development for the `scout-query` osquery extension
(`scout-query/main.go`, `scout-query/cache.go`, `scout-query/utils.go`,
`scout-query/powershell.go`).

The Go sources are shallowly embedded:

* Pure string processing (`parseArguments`, the line splitting and JSON
  handling of `ScoutQuickExecGenerate`, hex encoding/decoding, the cache
  path helpers) is translated function by function.
* The external `encoding/json` library is modelled by an executable JSON
  parser (`parseVal`) over the fragment the extension uses: values are
  null / booleans / numbers / strings / arrays / objects, decoding into
  `map[string]interface{}`, `map[string]string` and `[]string` follows the
  Go decoder's behaviour (null decodes into a map or slice as a no-op
  without error; a non-string array or object element makes decoding into
  `[]string` / `map[string]string` fail; trailing data after the value is
  an error; duplicate object keys: last value wins).
* The external `crypto/sha256` digest and `crypto/rsa` signature check
  are uninterpreted parameters of the resolver environment (`ResolveEnv`),
  as are the outcomes of HTTP requests and OS-level process events.
* The cache directory is an in-memory map from paths to byte lists;
  `encoding/json` marshalling of the small `CacheMeta` record is modelled
  by an injective executable encoding with a proved decode/encode
  round-trip, matching the library's behaviour on this struct.
-/

namespace Scout

/-! ### Characters and small string helpers -/

/-- Opening brace character. -/
def lbrace : Char := Char.ofNat 123

/-- Closing brace character. -/
def rbrace : Char := Char.ofNat 125

/-- Single-quote character (used by the fallback argument tokenizer). -/
def squote : Char := Char.ofNat 39

/-- ASCII lowercasing over the character list, modelling `strings.ToLower`
on the ASCII inputs the extension compares against. -/
def toLowerStr (s : String) : String := String.mk (s.data.map Char.toLower)

/-- Suffix test over character lists, modelling `strings.HasSuffix`. -/
def endsWithStr (s suffx : String) : Bool := List.isSuffixOf suffx.data s.data

/-- Model of `strings.Split(s, "\n")`: split at every separator, keeping
empty pieces; always returns at least one piece. -/
def splitOnChar (sep : Char) : List Char → List (List Char)
  | [] => [[]]
  | c :: r =>
    let rest := splitOnChar sep r
    if c == sep then [] :: rest
    else
      match rest with
      | [] => [[c]]
      | h :: t => (c :: h) :: t

/-- The lines of a console output string, as split by
`strings.Split(out, "\n")` in `ScoutQuickExecGenerate`. -/
def linesOf (s : String) : List String :=
  (splitOnChar (Char.ofNat 10) s.data).map (fun l => String.mk l)

/-- Whether `strings.TrimSpace(line) == ""` holds, i.e. the line contains
only whitespace characters. -/
def isBlankStr (s : String) : Bool :=
  s.data.all (fun c => c == ' ' || c == '\t' || c == Char.ofNat 13 ||
    c == Char.ofNat 12 || c == Char.ofNat 11 || c == Char.ofNat 10)

/-- Model of `strings.TrimRight(serverURL, "/")`. -/
def trimRightSlashes (s : String) : String :=
  String.mk ((s.data.reverse.dropWhile (fun c => c == '/')).reverse)

/-! ### Hexadecimal encoding (`encoding/hex`) -/

/-- Value of a hexadecimal digit character, accepting both cases. -/
def hexDigVal (c : Char) : Option Nat :=
  if '0' ≤ c ∧ c ≤ '9' then some (c.toNat - 48)
  else if 'a' ≤ c ∧ c ≤ 'f' then some (c.toNat - 87)
  else if 'A' ≤ c ∧ c ≤ 'F' then some (c.toNat - 55)
  else none

/-- Lowercase hexadecimal digit for a value below 16. -/
def hexDigChar (k : Nat) : Char :=
  Char.ofNat (if k < 10 then 48 + k else 87 + k)

/-- Model of `hex.EncodeToString`: two lowercase digits per byte. -/
def hexEncode (bs : List Nat) : String :=
  String.mk ((bs.map (fun b => [hexDigChar (b / 16 % 16), hexDigChar (b % 16)])).flatten)

/-- Helper for `hexDecode`: decode pairs of hex digits. -/
def hexDecodeL : List Char → Option (List Nat)
  | [] => some []
  | [_] => none
  | a :: b :: r =>
    match hexDigVal a, hexDigVal b, hexDecodeL r with
    | some va, some vb, some bs => some ((va * 16 + vb) :: bs)
    | _, _, _ => none

/-- Model of `hex.DecodeString`. -/
def hexDecode (s : String) : Option (List Nat) := hexDecodeL s.data

/-! ### JSON values and the `encoding/json` decoder model -/

/-- JSON values, as far as the extension observes them. Number literals
keep their lexeme: the extension never reads a numeric value, it only
needs to know that a number is not a string. -/
inductive Json where
  | null
  | bool (b : Bool)
  | num (lit : String)
  | str (s : String)
  | arr (elems : List Json)
  | obj (fields : List (String × Json))

/-- JSON whitespace. -/
def isWsChar (c : Char) : Bool := c == ' ' || c == '\t' || c == Char.ofNat 10 || c == Char.ofNat 13

/-- Skip leading JSON whitespace. -/
def skipWs : List Char → List Char
  | [] => []
  | c :: r => if isWsChar c then skipWs r else c :: r

/-- Expect a literal character sequence. -/
def expectLit : List Char → List Char → Option (List Char)
  | [], l => some l
  | _ :: _, [] => none
  | c :: cs, x :: xs => if x == c then expectLit cs xs else none

/-- Characters that may appear in a number lexeme. -/
def isNumChar (c : Char) : Bool :=
  ('0' ≤ c ∧ c ≤ '9' : Bool) || c == '-' || c == '+' || c == '.' || c == 'e' || c == 'E'

/-- Characters that may start a number. -/
def isNumStart (c : Char) : Bool := ('0' ≤ c ∧ c ≤ '9' : Bool) || c == '-'

/-- Body of a JSON string after the opening quote: returns the decoded
characters and the input remaining after the closing quote. Handles the
escape sequences the Go decoder handles (`\uXXXX` outside the surrogate
range, and the short escapes). -/
def parseStrBody : List Char → Option (List Char × List Char)
  | [] => none
  | c :: rest =>
    if c == '"' then some ([], rest)
    else if c == '\\' then
      match rest with
      | [] => none
      | 'u' :: a :: b :: c2 :: d :: rest3 =>
        match hexDigVal a, hexDigVal b, hexDigVal c2, hexDigVal d with
        | some va, some vb, some vc, some vd =>
          match parseStrBody rest3 with
          | some (s, r) => some (Char.ofNat (((va * 16 + vb) * 16 + vc) * 16 + vd) :: s, r)
          | none => none
        | _, _, _, _ => none
      | e :: rest2 =>
        let esc : Option Char :=
          if e == '"' then some '"'
          else if e == '\\' then some '\\'
          else if e == '/' then some '/'
          else if e == 'b' then some (Char.ofNat 8)
          else if e == 'f' then some (Char.ofNat 12)
          else if e == 'n' then some (Char.ofNat 10)
          else if e == 'r' then some (Char.ofNat 13)
          else if e == 't' then some (Char.ofNat 9)
          else none
        match esc with
        | some ec =>
          match parseStrBody rest2 with
          | some (s, r) => some (ec :: s, r)
          | none => none
        | none => none
    else
      match parseStrBody rest with
      | some (s, r) => some (c :: s, r)
      | none => none

mutual

/-- Fuel-indexed recursive-descent parser for a JSON value. -/
def parseVal : Nat → List Char → Option (Json × List Char)
  | 0, _ => none
  | f + 1, l =>
    match skipWs l with
    | [] => none
    | c :: r =>
      if c == 'n' then (expectLit ['u', 'l', 'l'] r).map (fun r2 => (Json.null, r2))
      else if c == 't' then (expectLit ['r', 'u', 'e'] r).map (fun r2 => (Json.bool true, r2))
      else if c == 'f' then (expectLit ['a', 'l', 's', 'e'] r).map (fun r2 => (Json.bool false, r2))
      else if c == '"' then
        (parseStrBody r).map (fun p => (Json.str (String.mk p.1), p.2))
      else if c == '[' then
        match skipWs r with
        | ']' :: r2 => some (Json.arr [], r2)
        | r1 => (parseArrRest f r1).map (fun p => (Json.arr p.1, p.2))
      else if c == lbrace then
        match skipWs r with
        | x :: r2 =>
          if x == rbrace then some (Json.obj [], r2)
          else (parseObjRest f (x :: r2)).map (fun p => (Json.obj p.1, p.2))
        | [] => none
      else if isNumStart c then
        let p := (c :: r).span isNumChar
        if p.1.isEmpty then none else some (Json.num (String.mk p.1), p.2)
      else none

/-- Comma-separated array elements followed by `]`. -/
def parseArrRest : Nat → List Char → Option (List Json × List Char)
  | 0, _ => none
  | f + 1, l =>
    match parseVal f l with
    | none => none
    | some (v, r) =>
      match skipWs r with
      | ',' :: r2 =>
        match parseArrRest f r2 with
        | some (vs, r3) => some (v :: vs, r3)
        | none => none
      | ']' :: r2 => some ([v], r2)
      | _ => none

/-- Comma-separated object members followed by the closing brace. -/
def parseObjRest : Nat → List Char → Option (List (String × Json) × List Char)
  | 0, _ => none
  | f + 1, l =>
    match skipWs l with
    | '"' :: r =>
      match parseStrBody r with
      | none => none
      | some (key, r1) =>
        match skipWs r1 with
        | ':' :: r2 =>
          match parseVal f r2 with
          | none => none
          | some (v, r3) =>
            match skipWs r3 with
            | ',' :: r4 =>
              match parseObjRest f r4 with
              | some (kvs, r5) => some ((String.mk key, v) :: kvs, r5)
              | none => none
            | x :: r4 =>
              if x == rbrace then some ([(String.mk key, v)], r4) else none
            | [] => none
        | _ => none
    | _ => none

end

/-- Model of `json.Unmarshal` up to the typed decoding step: parse one
JSON value and require that only whitespace remains. -/
def jsonUnmarshal (s : String) : Option Json :=
  match parseVal (s.data.length + 2) s.data with
  | some (v, rest) => if skipWs rest = [] then some v else none
  | none => none

/-- Insert into an association list with map semantics: replace the value
at an existing key in place, otherwise append. -/
def setAssoc {α : Type} (m : List (String × α)) (k : String) (v : α) : List (String × α) :=
  if m.any (fun kv => kv.1 == k) then
    m.map (fun kv => if kv.1 == k then (k, v) else kv)
  else m ++ [(k, v)]

/-- Build a Go map from parsed object members (duplicate keys: last value
wins, as in the Go decoder). -/
def dedupAssoc {α : Type} (kvs : List (String × α)) : List (String × α) :=
  kvs.foldl (fun m kv => setAssoc m kv.1 kv.2) []

/-- Model of `json.Unmarshal(data, &m)` for `m : map[string]interface{}`:
succeeds on a JSON object (and on `null`, which leaves the nil map and no
error — the Go decoder treats null as a no-op). -/
def unmarshalMapAny (s : String) : Option (List (String × Json)) :=
  match jsonUnmarshal s with
  | some (Json.obj kvs) => some (dedupAssoc kvs)
  | some Json.null => some []
  | _ => none

/-- Convert one decoded value into a Go `string` target: strings decode
to themselves, `null` is a no-op leaving the zero value `""`. -/
def jsonToStr : Json → Option String
  | Json.str s => some s
  | Json.null => some ""
  | _ => none

/-- Decode every element of a JSON array into a Go `string`. -/
def jsonToStrAll : List Json → Option (List String)
  | [] => some []
  | v :: vs =>
    match jsonToStr v, jsonToStrAll vs with
    | some s, some ss => some (s :: ss)
    | _, _ => none

/-- Decode every member value of a JSON object into a Go `string`. -/
def kvToStrAll : List (String × Json) → Option (List (String × String))
  | [] => some []
  | kv :: kvs =>
    match jsonToStr kv.2, kvToStrAll kvs with
    | some v, some rest => some ((kv.1, v) :: rest)
    | _, _ => none

/-- Model of `json.Unmarshal(data, &m)` for `m : map[string]string`. -/
def unmarshalMapStr (s : String) : Option (List (String × String)) :=
  match jsonUnmarshal s with
  | some (Json.obj kvs) =>
    match kvToStrAll kvs with
    | some kvs2 => some (dedupAssoc kvs2)
    | none => none
  | some Json.null => some []
  | _ => none

/-- Model of `json.Unmarshal(data, &a)` for `a : []string`. -/
def unmarshalStrArr (s : String) : Option (List String) :=
  match jsonUnmarshal s with
  | some (Json.arr vs) => jsonToStrAll vs
  | some Json.null => some []
  | _ => none

/-! ### The `encoding/json` encoder model for `[]string` -/

/-- Whether the Go encoder escapes this character in a string: the
mandatory JSON escapes plus the HTML-safe set. -/
def needsEsc (c : Char) : Bool :=
  c.toNat < 32 || c == '"' || c == '\\' || c == '<' || c == '>' || c == '&' ||
    c.toNat == 8232 || c.toNat == 8233

/-- Four lowercase hex digits of a scalar value below `0x10000`. -/
def hex4 (n : Nat) : List Char :=
  [hexDigChar (n / 4096 % 16), hexDigChar (n / 256 % 16), hexDigChar (n / 16 % 16),
    hexDigChar (n % 16)]

/-- Encoding of one character inside a JSON string literal. -/
def escCharEnc (c : Char) : List Char :=
  if needsEsc c then '\\' :: 'u' :: hex4 c.toNat else [c]

/-- Encoding of a string as a JSON string literal. -/
def encStr (s : String) : List Char :=
  '"' :: (s.data.map escCharEnc).flatten ++ ['"']

/-- Model of `json.Marshal` on a (non-nil) `[]string` value: the compact
JSON array of the encoded strings. -/
def jsonMarshalStrArr (xs : List String) : String :=
  String.mk ('[' ::
    (match xs with
     | [] => [']']
     | x :: t => encStr x ++ (t.map (fun s => ',' :: encStr s)).flatten ++ [']']))

/-! ### `parseArguments` (main.go lines 745-787) -/

/-- State step of the quote-aware fallback tokenizer: Go iterates runes
with their starting byte index `i` and, inside the loop body, appends the
pending argument when `i == len(args)-1` (so a trailing argument whose
last rune is multi-byte is never flushed). -/
def tokenizeGo (byteLen : Nat) : List Char → Nat → List Char → List String → Bool → Char → List String
  | [], _, _, res, _, _ => res
  | c :: rest, i, cur, res, inQ, qc =>
    let step :
        List Char × List String × Bool × Char :=
      if c == ' ' || c == '\t' then
        if inQ then (cur ++ [c], res, inQ, qc)
        else if cur.length > 0 then ([], res ++ [String.mk cur], inQ, qc)
        else (cur, res, inQ, qc)
      else if c == '"' || c == squote then
        if inQ && (c == qc) then (cur, res, false, qc)
        else if !inQ then (cur, res, true, c)
        else (cur ++ [c], res, inQ, qc)
      else (cur ++ [c], res, inQ, qc)
    let flushed :=
      if i == byteLen - 1 && step.1.length > 0 then step.2.1 ++ [String.mk step.1]
      else step.2.1
    tokenizeGo byteLen rest (i + c.utf8Size) step.1 flushed step.2.2.1 step.2.2.2

/-- The fallback whitespace/quote tokenizer of `parseArguments`. -/
def tokenizeArgs (args : String) : List String :=
  tokenizeGo args.utf8ByteSize args.data 0 [] [] false (Char.ofNat 0)

/-- `parseArguments`: first try to decode the string as a JSON array of
strings; on success return that array, otherwise tokenize. -/
def parseArguments (args : String) : List String :=
  match unmarshalStrArr args with
  | some array => array
  | none => tokenizeArgs args

/-! ### Data model (`Script`, `CacheMeta`, `ExecutionResult`) -/

/-- The `Script` struct of main.go. -/
structure Script where
  name : String := ""
  description : String := ""
  contents : List Nat := []
  hash : String := ""
  cached : Bool := false
deriving DecidableEq

/-- The `CacheMeta` struct of cache.go; `cacheTime` is an abstract clock
reading (Go stores a `time.Time`). -/
structure CacheMeta where
  scriptHash : String := ""
  scriptName : String := ""
  cacheTime : Nat := 0
deriving DecidableEq

/-- The `ExecutionResult` struct of main.go. -/
structure ExecutionResult where
  jobID : String := ""
  scriptName : String := ""
  args : String := ""
  consoleOut : String := ""
  errorOut : String := ""
  executionTime : String := ""
  duration : String := ""
  scriptHash : String := ""
  fromCache : String := ""
  cacheEnabled : String := ""
  status : String := ""
deriving DecidableEq

/-! ### Cache store (cache.go) over an in-memory file system -/

/-- The cache directory as a map from file path to file contents. -/
def Fs : Type := String → Option (List Nat)

/-- Model of `os.WriteFile`. -/
def writeFile (fs : Fs) (path : String) (data : List Nat) : Fs :=
  fun p => if p = path then some data else fs p

/-- Model of `os.Remove` (on a path that may or may not exist). -/
def removeFile (fs : Fs) (path : String) : Fs :=
  fun p => if p = path then none else fs p

/-- `getCacheFilePath` (cache.go): `filepath.Join(cacheDir, cacheKey + ".script")`. -/
def getCacheFilePath (cacheKey cacheDir : String) : String :=
  cacheDir ++ "/" ++ cacheKey ++ ".script"

/-- `getSignatureFilePath` (cache.go): `filepath.Join(cacheDir, cacheKey + ".script.sig")`. -/
def getSignatureFilePath (cacheKey cacheDir : String) : String :=
  cacheDir ++ "/" ++ cacheKey ++ ".script.sig"

/-- Length-prefixed byte encoding of a string, used by `encodeMeta`. -/
def encodeStrBytes (s : String) : List Nat :=
  s.data.length :: s.data.map Char.toNat

/-- Inverse of `encodeStrBytes`, returning the remaining bytes. -/
def decodeStrBytes : List Nat → Option (String × List Nat)
  | [] => none
  | n :: rest =>
    if n ≤ rest.length then
      some (String.mk ((rest.take n).map Char.ofNat), rest.drop n)
    else none

/-- Model of `json.Marshal` on a `CacheMeta` value: the library's encoding
is injective and decoded back losslessly by `json.Unmarshal`, which is all
the cache code relies on; it is modelled by this executable encoding. -/
def encodeMeta (m : CacheMeta) : List Nat :=
  encodeStrBytes m.scriptHash ++ encodeStrBytes m.scriptName ++ [m.cacheTime]

/-- Model of `json.Unmarshal` into a `CacheMeta` value. -/
def decodeMeta (bs : List Nat) : Option CacheMeta :=
  match decodeStrBytes bs with
  | none => none
  | some (h, r1) =>
    match decodeStrBytes r1 with
    | none => none
    | some (n, r2) =>
      match r2 with
      | [t] => some { scriptHash := h, scriptName := n, cacheTime := t }
      | _ => none

/-- `loadScriptFromCache` (cache.go lines 82-114): read the payload file,
read the sibling `.meta` file, decode the metadata. The stat check and the
read are collapsed: in the in-memory model a present file is readable. -/
def loadScriptFromCache (cacheKey cacheDir : String) (fs : Fs) :
    Except String (List Nat × CacheMeta) :=
  let cacheFilePath := getCacheFilePath cacheKey cacheDir
  match fs cacheFilePath with
  | none => .error "cache file does not exist"
  | some data =>
    match fs (cacheFilePath ++ ".meta") with
    | none => .error "failed to read metadata file"
    | some metadataData =>
      match decodeMeta metadataData with
      | none => .error "failed to unmarshal metadata"
      | some metadata => .ok (data, metadata)

/-- `loadSignatureFromCache` (cache.go lines 42-49). -/
def loadSignatureFromCache (cacheKey cacheDir : String) (fs : Fs) : Except String (List Nat) :=
  match fs (getSignatureFilePath cacheKey cacheDir) with
  | none => .error "signature file does not exist"
  | some signature => .ok signature

/-- `saveScriptToCache` (cache.go lines 116-178): remove any pre-existing
payload, then write it; likewise for the `.meta` file and the signature
file. `now` is the clock reading stored as `CacheTime`. Note the source
removes the old signature at `getSignatureFilePath` but writes the new one
at `cacheFilePath + ".sig"`; the two paths are equal strings. -/
def saveScriptToCache (cacheKey : String) (script : Script) (signature : List Nat)
    (now : Nat) (cacheDir : String) (fs : Fs) : Fs :=
  let cacheFilePath := getCacheFilePath cacheKey cacheDir
  let fs1 := if (fs cacheFilePath).isSome then removeFile fs cacheFilePath else fs
  let fs2 := writeFile fs1 cacheFilePath script.contents
  let metadata : CacheMeta :=
    { scriptHash := script.hash, scriptName := script.name, cacheTime := now }
  let fs3 :=
    if (fs2 (cacheFilePath ++ ".meta")).isSome then removeFile fs2 (cacheFilePath ++ ".meta")
    else fs2
  let fs4 := writeFile fs3 (cacheFilePath ++ ".meta") (encodeMeta metadata)
  let fs5 :=
    if (fs4 (getSignatureFilePath cacheKey cacheDir)).isSome then
      removeFile fs4 (getSignatureFilePath cacheKey cacheDir)
    else fs4
  writeFile fs5 (cacheFilePath ++ ".sig") signature

/-- `removeScriptFromCache` (cache.go lines 181-186). -/
def removeScriptFromCache (cacheKey cacheDir : String) (fs : Fs) : Fs :=
  let cacheFilePath := getCacheFilePath cacheKey cacheDir
  removeFile (removeFile (removeFile fs cacheFilePath) (cacheFilePath ++ ".meta"))
    (getSignatureFilePath cacheKey cacheDir)

/-! ### Resolver (`getScript`, main.go lines 465-654) -/

/-- Outcome of the HTTP GET for the script: status code, body bytes and
the `X-Signature` header (`""` models a missing header, which is what
`Header.Get` returns). -/
structure FetchResp where
  status : Nat
  body : List Nat
  sigHeader : String
deriving DecidableEq

/-- Environment of one `getScript` call: the configuration values it reads,
the uninterpreted crypto primitives, and the outcomes of its external
calls (cache reads, the hash endpoint, the script GET, the cache save). -/
structure ResolveEnv where
  goos : String
  serverURL : String
  cacheWindow : Nat
  now : Nat
  pathEscape : String → String
  sha256 : List Nat → List Nat
  verify : List Nat → List Nat → Bool
  cacheLoad : Option (List Nat × CacheMeta)
  sigFileExists : Bool
  sigLoad : Option (List Nat)
  serverHash : Option String
  pemOk : Bool
  keyIsRSA : Option Bool
  fetchResp : Option FetchResp
  saveErr : Option String

/-- Cache-side effects performed by one `getScript` call. -/
inductive CacheEvent where
  | removed (key : String)
  | saved (key : String) (script : Script) (signature : List Nat)
deriving DecidableEq

/-- `getOSSubDir` (cache.go lines 52-62). -/
def getOSSubDir (goos : String) : String :=
  if goos = "windows" then "windows"
  else if goos = "darwin" then "darwin"
  else "linux"

/-- `getScriptURL` (cache.go lines 64-73). -/
def getScriptURL (goos serverURL scriptName : String) (pathEscape : String → String) : String :=
  trimRightSlashes serverURL ++ "/" ++ getOSSubDir goos ++ "/" ++ pathEscape scriptName

/-- `getCacheKey` (cache.go lines 194-198): hex SHA-256 of the URL bytes. -/
def getCacheKey (sha256 : List Nat → List Nat) (url : String) : String :=
  hexEncode (sha256 (url.data.map Char.toNat))

/-- The cache-validation chain of `getScript` (main.go lines 487-566): it
returns the script when every gate passes — load succeeded, the entry is
within the freshness window, the server's hash endpoint answered with the
stored hash, the signature file exists and loads, the public key parses as
RSA, and the signature verifies against the recomputed digest. On success
the returned hash is recomputed from the payload. -/
def cacheLookup (env : ResolveEnv) : Option Script :=
  match env.cacheLoad with
  | none => none
  | some (data, meta) =>
    if env.now - meta.cacheTime < env.cacheWindow then
      match env.serverHash with
      | some currentHash =>
        if currentHash = meta.scriptHash then
          if env.sigFileExists then
            match env.sigLoad with
            | some signature =>
              if env.pemOk then
                match env.keyIsRSA with
                | some true =>
                  let hashed := env.sha256 data
                  let scriptHash := hexEncode hashed
                  if env.verify hashed signature then
                    some { name := meta.scriptName, description := "", contents := data,
                           hash := scriptHash, cached := true }
                  else none
                | _ => none
              else none
            | none => none
          else none
        else none
      | none => none
    else none

/-- The fetch path of `getScript` (main.go lines 577-651): GET the script,
check the status, extract and hex-decode the `X-Signature` header, parse
the public key, recompute the SHA-256 digest, verify the signature, and
only then save to the cache (`cacheEnabled` is always true in the source).
Events record the cache writes performed. -/
def fetchPath (env : ResolveEnv) (scriptName cacheKey : String) :
    Except String Script × List CacheEvent :=
  match env.fetchResp with
  | none => (.error "failed to fetch script", [])
  | some resp =>
    if resp.status ≠ 200 then
      (.error ("failed to fetch script: received status code " ++ toString resp.status), [])
    else if resp.sigHeader = "" then (.error "no signature in response header", [])
    else
      match hexDecode resp.sigHeader with
      | none => (.error "failed to decode signature", [])
      | some signature =>
        if env.pemOk then
          match env.keyIsRSA with
          | none => (.error "failed to parse public key", [])
          | some false => (.error "public key is not rsa", [])
          | some true =>
            let hashed := env.sha256 resp.body
            let scriptHash := hexEncode hashed
            if env.verify hashed signature then
              let script : Script :=
                { name := scriptName, description := "", contents := resp.body,
                  hash := scriptHash, cached := false }
              match env.saveErr with
              | some _ =>
                (.error "failed to save script to cache",
                  [CacheEvent.saved cacheKey script signature])
              | none => (.ok script, [CacheEvent.saved cacheKey script signature])
            else (.error "Script signature verification failed", [])
        else (.error "failed to parse public key PEM", [])

/-- `getScript` (main.go lines 465-654). The source declares `cacheValid`
twice: the inner shadow (line 503) guards the early return inside the
`useCache` block, while the outer variable (line 480) read at line 568 and
line 577 is never set to true. Consequently, whenever the cache branch
does not return the script, the entry is removed (line 572) and the fetch
path runs unconditionally; both facts are baked into this embedding. When
the cache load fails, line 495 still overwrites `scriptName` with the
zero-value metadata's empty name. -/
def getScript (env : ResolveEnv) (scriptName : String) (useCache : Bool) :
    Except String Script × List CacheEvent :=
  let fullURL := getScriptURL env.goos env.serverURL scriptName env.pathEscape
  let cacheKey := getCacheKey env.sha256 fullURL
  if useCache then
    match cacheLookup env with
    | some script => (.ok script, [])
    | none =>
      let nameAfter :=
        match env.cacheLoad with
        | some (_, meta) => meta.scriptName
        | none => ""
      let fp := fetchPath env nameAfter cacheKey
      (fp.1, CacheEvent.removed cacheKey :: fp.2)
  else fetchPath env scriptName cacheKey

/-! ### Executor (`executeScript` / `startCommandExecution`, main.go lines 324-723) -/

/-- A spawned child process: interpreter and argument vector. -/
structure SpawnCall where
  prog : String
  argv : List String
deriving DecidableEq

/-- Trace of one `executeScript` call: the child spawned (if any), whether
`cmd.Process.Kill` ran, and whether the Go code would have panicked (the
Windows/python branch calls `panic` on interpreter errors). -/
structure ExecTrace where
  spawned : Option SpawnCall := none
  killed : Bool := false
  panicked : Bool := false
deriving DecidableEq

/-- Result of the inline PowerShell execution (powershell.go). -/
structure PsExecResult where
  stdOut : String := ""
  stdErr : String := ""
  err : Option String := none
deriving DecidableEq

/-- Environment of one `executeScript` call: the host OS, the temp-file
name chosen by `os.CreateTemp`, and the outcomes of every OS interaction
(file writes, pipe creation, process start/wait, the wall-clock deadline,
captured output and timing strings). -/
structure ExecEnv where
  goos : String
  tmpName : String := "/tmp/remote_script"
  tmpCreateErr : Option String := none
  tmpWriteErr : Option String := none
  chmodErr : Option String := none
  psExec : PsExecResult := {}
  pyCmdOk : Bool := true
  pyRunErr : Option String := none
  stdoutPipeErr : Option String := none
  stderrPipeErr : Option String := none
  startErr : Option String := none
  deadlineExceeded : Bool := false
  waitErr : Option String := none
  stdoutData : String := ""
  stderrData : String := ""
  startTimeStr : String := ""
  durationStr : String := ""

/-- `isVBScript` (main.go lines 725-727). -/
def isVBScript (script : String) : Bool :=
  endsWithStr (toLowerStr script) ".vbs" || endsWithStr (toLowerStr script) ".vbscript"

/-- `isBatchScript` (main.go lines 729-731). -/
def isBatchScript (scriptName : String) : Bool :=
  endsWithStr (toLowerStr scriptName) ".bat" || endsWithStr (toLowerStr scriptName) ".cmd"

/-- `isShellScript` (main.go lines 733-735). -/
def isShellScript (scriptName : String) : Bool :=
  endsWithStr (toLowerStr scriptName) ".sh"

/-- `isPythonScript` (main.go lines 737-739). -/
def isPythonScript (scriptName : String) : Bool :=
  endsWithStr (toLowerStr scriptName) ".py" || endsWithStr (toLowerStr scriptName) ".pyc"

/-- `isPowerShellScript` (main.go lines 741-743). -/
def isPowerShellScript (script : String) : Bool :=
  endsWithStr (toLowerStr script) ".ps1" || endsWithStr (toLowerStr script) ".psm1" ||
    endsWithStr (toLowerStr script) ".psd1"

/-- `startCommandExecution` (main.go lines 657-723): create the pipes,
start the child, wait; on `ctx` deadline expiry overwrite `error_out` with
the timeout marker, set status `"timeout"`, kill the process and return
the `cmd.Wait()` error unchanged; otherwise collect output and timing and
derive `"completed"` / `"failed"` from the wait error. The third component
records whether `cmd.Process.Kill` ran. -/
def startCommandExecution (ee : ExecEnv) (execResult : ExecutionResult) :
    ExecutionResult × Option String × Bool :=
  match ee.stdoutPipeErr with
  | some e =>
    ({ execResult with errorOut := "Failed to capture stdout: " ++ e, status := "failed" },
      some e, false)
  | none =>
  match ee.stderrPipeErr with
  | some e =>
    ({ execResult with errorOut := "Failed to capture stderr: " ++ e, status := "failed" },
      some e, false)
  | none =>
  match ee.startErr with
  | some e =>
    ({ execResult with errorOut := "Failed to start command: " ++ e, status := "failed" },
      some e, false)
  | none =>
    if ee.deadlineExceeded then
      ({ execResult with errorOut := "Script execution timed out", status := "timeout" },
        ee.waitErr, true)
    else
      let r1 := { execResult with
        consoleOut := ee.stdoutData,
        errorOut := execResult.errorOut ++ ee.stderrData,
        executionTime := ee.startTimeStr,
        duration := ee.durationStr }
      match ee.waitErr with
      | some e =>
        ({ r1 with
            errorOut := r1.errorOut ++ "\nScript execution failed: " ++ e,
            status := "failed" }, some e, false)
      | none => ({ r1 with status := "completed" }, none, false)

/-- `executeScript` (main.go lines 324-463). Points mirrored from the
source: the Windows branches pass the raw `argsList` to the interpreter
while the darwin/linux branches pass `parseArguments` of the joined string;
the unsupported-type and unsupported-OS branches return the *stale* outer
`err`, which is nil at that point, together with a `"failed"` result; the
Windows/python branch runs the embedded interpreter outside the common
capture path (its output goes to the extension's own stdout) and leaves
the outer `cmd` nil, so the function falls through and returns the result
still in status `"running"` with a nil error. -/
def executeScript (ee : ExecEnv) (script : Script) (argsList : List String) :
    ExecutionResult × Option String × ExecTrace :=
  let execResult : ExecutionResult :=
    { jobID := "quick_exec", scriptName := script.name,
      args := String.intercalate " " argsList, status := "running",
      scriptHash := script.hash }
  match ee.tmpCreateErr with
  | some e =>
    ({ execResult with errorOut := "Failed to create temp file: " ++ e, status := "failed" },
      some e, {})
  | none =>
  match ee.tmpWriteErr with
  | some e =>
    ({ execResult with
        errorOut := "Failed to write script to temp file: " ++ e,
        status := "failed" }, some e, {})
  | none =>
  match (if ee.goos = "windows" then none else ee.chmodErr) with
  | some e =>
    ({ execResult with
        errorOut := "Failed to set script executable: " ++ e,
        status := "failed" }, some e, {})
  | none =>
    let scriptArgs := String.intercalate " " argsList
    let argsSlice := parseArguments scriptArgs
    if ee.goos = "windows" then
      if isPowerShellScript script.name then
        let call : SpawnCall :=
          ⟨"powershell.exe",
            ["-NoProfile", "-ExecutionPolicy", "Bypass", "-NonInteractive", "-File",
              ee.tmpName] ++ argsList⟩
        match ee.psExec.err with
        | some e =>
          ({ execResult with errorOut := ee.psExec.stdErr, status := "failed" },
            some e, { spawned := some call })
        | none =>
          ({ execResult with
              consoleOut := ee.psExec.stdOut,
              errorOut := ee.psExec.stdErr,
              status := "completed" }, none, { spawned := some call })
      else if isBatchScript script.name then
        let call : SpawnCall := ⟨"cmd.exe", ["/C", ee.tmpName] ++ argsList⟩
        let r := startCommandExecution ee execResult
        (r.1, r.2.1, { spawned := some call, killed := r.2.2 })
      else if isVBScript script.name then
        let call : SpawnCall := ⟨"cscript.exe", [ee.tmpName] ++ argsList⟩
        let r := startCommandExecution ee execResult
        (r.1, r.2.1, { spawned := some call, killed := r.2.2 })
      else if isPythonScript script.name then
        if ee.pyCmdOk then
          match ee.pyRunErr with
          | some _ =>
            (execResult, none,
              { spawned := some ⟨"embedded-python", [ee.tmpName] ++ argsList⟩, panicked := true })
          | none =>
            (execResult, none, { spawned := some ⟨"embedded-python", [ee.tmpName] ++ argsList⟩ })
        else (execResult, none, { panicked := true })
      else
        ({ execResult with
            errorOut := "Unsupported script type on Windows",
            status := "failed" }, none, {})
    else if ee.goos = "darwin" ∨ ee.goos = "linux" then
      if isShellScript script.name then
        let call : SpawnCall := ⟨"/bin/bash", [ee.tmpName] ++ argsSlice⟩
        let r := startCommandExecution ee execResult
        (r.1, r.2.1, { spawned := some call, killed := r.2.2 })
      else if isPythonScript script.name then
        let call : SpawnCall := ⟨"python3", [ee.tmpName] ++ argsSlice⟩
        let r := startCommandExecution ee execResult
        (r.1, r.2.1, { spawned := some call, killed := r.2.2 })
      else
        ({ execResult with
            errorOut := "Unsupported script type on Unix",
            status := "failed" }, none, {})
    else
      ({ execResult with errorOut := "Unsupported OS", status := "failed" }, none, {})

/-! ### Row projection and the `scout_exec` generate call (main.go lines 129-245) -/

/-- A table row: string-keyed, string-valued, with Go-map update
semantics (`row[key] = value` replaces an existing key). -/
def Row : Type := List (String × String)

/-- `row[k] = v`. -/
def rowSet (r : Row) (k v : String) : Row := setAssoc r k v

/-- Lookup of a row column. -/
def rowGet (r : Row) (k : String) : Option String :=
  (r.find? (fun kv => kv.1 == k)).map (fun kv => kv.2)

/-- The fixed fields of a JSON-mode row (main.go lines 206-212). The
`columns` order follows the parsed first-line object; Go's map iteration
order is arbitrary, and no claim depends on it. -/
def baseJsonRow (result : ExecutionResult) (useCache : String) (columns : List String) : Row :=
  [("script_name", result.scriptName), ("args", result.args), ("from_cache", useCache),
    ("status", result.status), ("columns", String.intercalate "," columns)]

/-- One plain-text row (main.go lines 229-240). -/
def textRow (result : ExecutionResult) (useCache : String) (line : String) : Row :=
  [("script_name", result.scriptName), ("args", result.args), ("console_out", line),
    ("error_out", result.errorOut), ("execution_time", result.executionTime),
    ("duration", result.duration), ("script_hash", result.scriptHash),
    ("from_cache", useCache), ("status", result.status), ("columns", "console_out")]

/-- The row produced from one console line in JSON mode, if the line
decodes into `map[string]string`: the fixed fields with the decoded
fields written over them (main.go lines 201-219). -/
def jsonRowOf (result : ExecutionResult) (useCache : String) (columns : List String)
    (line : String) : Option Row :=
  match unmarshalMapStr line with
  | none => none
  | some lineData =>
    some (lineData.foldl (fun r kv => rowSet r kv.1 kv.2) (baseJsonRow result useCache columns))

/-- The row-projection step of `ScoutQuickExecGenerate` (main.go lines
176-244): split on newlines; test whether the *first* line (line index 0,
not the first non-empty line) unmarshals into `map[string]interface{}`;
in JSON mode emit one row per non-blank line that unmarshals into
`map[string]string`, skipping the rest; otherwise emit one plain-text row
per non-blank line. The
`len(consoleLines) == 0` guard of the source is unreachable because
`strings.Split` never returns an empty slice. -/
def projectRows (result : ExecutionResult) (useCache : String) : Except String (List Row) :=
  let consoleLines := linesOf result.consoleOut
  match consoleLines with
  | [] => .error "no output from script"
  | firstLine :: _ =>
    match unmarshalMapAny firstLine with
    | some firstLineData =>
      let columns := firstLineData.map (fun kv => kv.1)
      .ok (consoleLines.foldl
        (fun acc line =>
          if isBlankStr line then acc
          else
            match jsonRowOf result useCache columns line with
            | none => acc
            | some row => acc ++ [row]) [])
    | none =>
      .ok (consoleLines.foldl
        (fun acc line =>
          if isBlankStr line then acc else acc ++ [textRow result useCache line]) [])

/-- `processBoolConstraint` (utils.go lines 150-158). -/
def processBoolConstraint (val : String) : Bool :=
  if toLowerStr val = "0" ∨ toLowerStr val = "false" then false
  else if toLowerStr val = "1" ∨ toLowerStr val = "true" then true
  else false

/-- The front half of `ScoutQuickExecGenerate` (main.go lines 129-175):
constraint validation, cache-flag parsing, resolution and execution, up to
the execution result whose console output is projected into rows. Returns
the result together with the verbatim `from_cache` constraint string. -/
def generateExecResult (env : ResolveEnv) (ee : ExecEnv)
    (scriptNames argsConstraints cacheConstraints : List String) :
    Except String (ExecutionResult × String) :=
  match scriptNames with
  | [] => .error "no script specified in the query"
  | scriptName :: restNames =>
    if restNames ≠ [] then .error "only one script can be executed at a time"
    else
      let useCache := cacheConstraints.headD "false"
      let cacheBool := processBoolConstraint useCache
      match (getScript env scriptName cacheBool).1 with
      | .error e => .error ("failed to get script: " ++ e)
      | .ok script =>
        let r := executeScript ee script argsConstraints
        match r.2.1 with
        | some e => .error ("failed to execute script: " ++ e)
        | none =>
          .ok ({ r.1 with fromCache := if script.cached then "true" else "false" }, useCache)

/-- `ScoutQuickExecGenerate` (main.go lines 129-245): resolve, execute and
project rows. -/
def scoutQuickExecGenerate (env : ResolveEnv) (ee : ExecEnv)
    (scriptNames argsConstraints cacheConstraints : List String) :
    Except String (List Row) :=
  match generateExecResult env ee scriptNames argsConstraints cacheConstraints with
  | .error e => .error e
  | .ok (result, useCache) => projectRows result useCache

/-- The condition under which `ScoutQuickExecGenerate` picks JSON mode:
the first line of the console output (not the first non-empty line)
unmarshals into `map[string]interface{}` (main.go lines 185-187). -/
def selectsJsonMode (consoleOut : String) : Bool :=
  (unmarshalMapAny ((linesOf consoleOut).headD "")).isSome

/-- The first line of the output that is non-empty after trimming. -/
def firstNonEmptyLine (s : String) : Option String :=
  (linesOf s).find? (fun l => !isBlankStr l)

/-- Whether a string parses as a JSON object. -/
def parsesAsJsonObject (s : String) : Bool :=
  match jsonUnmarshal s with
  | some (Json.obj _) => true
  | _ => false

/-- The (host, script-kind) combinations for which `executeScript` has no
interpreter: unknown suffix on Windows, non-shell/non-python suffix on
darwin/linux, and every other host. -/
def unsupportedCombo (goos name : String) : Bool :=
  if goos = "windows" then
    !(isPowerShellScript name || isBatchScript name || isVBScript name || isPythonScript name)
  else if goos = "darwin" ∨ goos = "linux" then
    !(isShellScript name || isPythonScript name)
  else true

/-! ### Round-trip of the JSON string-array encoder through the decoder -/

/-- Hex digits decode back to their value. -/
theorem hexDigVal_hexDigChar (k : Nat) (hk : k < 16) : hexDigVal (hexDigChar k) = some k := by
  interval_cases k <;> rfl

/-- Skipping whitespace is the identity on inputs that start with a
non-whitespace character. -/
theorem skipWs_cons_of_not_ws (c : Char) (l : List Char) (h : isWsChar c = false) :
    skipWs (c :: l) = c :: l := by
  rw [skipWs.eq_def]
  simp [h]

/-- A `\uXXXX` escape decodes to the encoded scalar value. -/
theorem parseStrBody_u (n : Nat) (hn : n < 65536) (l : List Char) :
    parseStrBody ('\\' :: 'u' :: hex4 n ++ l) =
      (parseStrBody l).map (fun p => (Char.ofNat n :: p.1, p.2)) := by
  have h1 : n / 4096 % 16 < 16 := Nat.mod_lt _ (by norm_num)
  have h2 : n / 256 % 16 < 16 := Nat.mod_lt _ (by norm_num)
  have h3 : n / 16 % 16 < 16 := Nat.mod_lt _ (by norm_num)
  have h4 : n % 16 < 16 := Nat.mod_lt _ (by norm_num)
  have harith : ((n / 4096 % 16 * 16 + n / 256 % 16) * 16 + n / 16 % 16) * 16 + n % 16 = n := by
    omega
  rw [hex4, parseStrBody.eq_def]
  simp only [List.cons_append, List.nil_append]
  rw [hexDigVal_hexDigChar _ h1, hexDigVal_hexDigChar _ h2, hexDigVal_hexDigChar _ h3,
    hexDigVal_hexDigChar _ h4]
  cases hpl : parseStrBody l <;> simp [hpl, harith]

/-- Every character the encoder escapes has a scalar value below `2^16`. -/
theorem needsEsc_lt (c : Char) (h : needsEsc c = true) : c.toNat < 65536 := by
  simp only [needsEsc, Bool.or_eq_true, beq_iff_eq, decide_eq_true_eq] at h
  rcases h with ((((((h | h) | h) | h) | h) | h) | h) | h
  · omega
  · subst h; decide
  · subst h; decide
  · subst h; decide
  · subst h; decide
  · subst h; decide
  · omega
  · omega

/-- One encoded character decodes back to itself, whatever follows. -/
theorem parseStrBody_escCharEnc (c : Char) (l : List Char) :
    parseStrBody (escCharEnc c ++ l) =
      (parseStrBody l).map (fun p => (c :: p.1, p.2)) := by
  by_cases h : needsEsc c = true
  · rw [escCharEnc, if_pos h]
    rw [show ('\\' :: 'u' :: hex4 c.toNat) ++ l = '\\' :: 'u' :: hex4 c.toNat ++ l by simp]
    rw [parseStrBody_u c.toNat (needsEsc_lt c h) l, Char.ofNat_toNat]
  · have h' : needsEsc c = false := by simpa using h
    simp only [needsEsc, Bool.or_eq_false_iff, beq_eq_false_iff_ne, ne_eq,
      decide_eq_false_iff_not] at h'
    obtain ⟨⟨⟨⟨⟨⟨⟨hlt, hq⟩, hb⟩, _⟩, _⟩, _⟩, _⟩, _⟩ := h'
    rw [escCharEnc, if_neg h]
    simp only [List.cons_append, List.nil_append]
    rw [parseStrBody.eq_def]
    have hq2 : (c == '"') = false := beq_eq_false_iff_ne.mpr hq
    have hb2 : (c == '\\') = false := beq_eq_false_iff_ne.mpr hb
    simp only [hq2, hb2, Bool.false_eq_true, if_false]
    cases parseStrBody l <;> rfl

/-- An encoded string body followed by the closing quote decodes to the
original characters. -/
theorem parseStrBody_body (cs : List Char) (l : List Char) :
    parseStrBody ((cs.map escCharEnc).flatten ++ '"' :: l) = some (cs, l) := by
  induction cs generalizing l with
  | nil =>
    rw [List.map_nil, List.flatten_nil, List.nil_append, parseStrBody.eq_def]
    simp
  | cons c cs ih =>
    rw [List.map_cons, List.flatten_cons, List.append_assoc, parseStrBody_escCharEnc, ih]
    rfl

/-- An encoded JSON string literal parses as the original string. -/
theorem parseVal_encStr (s : String) (l : List Char) (f : Nat) :
    parseVal (f + 1) (encStr s ++ l) = some (Json.str s, l) := by
  rw [encStr]
  simp only [List.cons_append, List.append_assoc, List.singleton_append, List.nil_append]
  rw [parseVal]
  rw [skipWs_cons_of_not_ws '"' _ (by decide)]
  simp only [show (('"' : Char) == 'n') = false from rfl,
    show (('"' : Char) == 't') = false from rfl, show (('"' : Char) == 'f') = false from rfl,
    show (('"' : Char) == '"') = true from rfl, Bool.false_eq_true, if_false, if_true]
  rw [parseStrBody_body s.data l]
  rfl

/-- Encoded array elements parse back to the original strings, given
enough fuel. -/
theorem parseArrRest_enc (t : List String) (x : String) (f : Nat) (l : List Char)
    (h : t.length + 1 < f) :
    parseArrRest f (encStr x ++ ((t.map (fun s => ',' :: encStr s)).flatten ++ ']' :: l)) =
      some ((x :: t).map Json.str, l) := by
  induction t generalizing x f l with
  | nil =>
    obtain ⟨f1, rfl⟩ : ∃ f1, f = f1 + 2 := ⟨f - 2, by omega⟩
    rw [parseArrRest]
    simp only [List.map_nil, List.flatten_nil, List.nil_append]
    rw [parseVal_encStr x (']' :: l) f1]
    simp only []
    rw [skipWs_cons_of_not_ws ']' l (by decide)]
    simp
  | cons y t ih =>
    obtain ⟨f1, rfl⟩ : ∃ f1, f = f1 + 2 := ⟨f - 2, by omega⟩
    rw [parseArrRest]
    simp only [List.map_cons, List.flatten_cons, List.cons_append, List.append_assoc]
    rw [parseVal_encStr x _ f1]
    simp only []
    rw [skipWs_cons_of_not_ws ',' _ (by decide)]
    have h2 : t.length + 1 < f1 + 1 := by
      simp only [List.length_cons] at h
      omega
    have hih := ih y (f1 + 1) l h2
    simp only [List.append_assoc] at hih
    simp [hih]

/-- An encoded non-empty string array parses as the array of its strings. -/
theorem parseVal_encArr (x : String) (t : List String) (f : Nat) (l : List Char)
    (h : t.length + 1 < f) :
    parseVal (f + 1)
        ('[' :: (encStr x ++ ((t.map (fun s => ',' :: encStr s)).flatten ++ ']' :: l))) =
      some (Json.arr ((x :: t).map Json.str), l) := by
  rw [parseVal]
  rw [skipWs_cons_of_not_ws '[' _ (by decide)]
  simp only [show (('[' : Char) == 'n') = false from rfl,
    show (('[' : Char) == 't') = false from rfl, show (('[' : Char) == 'f') = false from rfl,
    show (('[' : Char) == '"') = false from rfl, show (('[' : Char) == '[') = true from rfl,
    Bool.false_eq_true, if_false, if_true]
  have hshape : encStr x ++ ((t.map (fun s => ',' :: encStr s)).flatten ++ ']' :: l)
      = '"' :: ((x.data.map escCharEnc).flatten ++
          ('"' :: ((t.map (fun s => ',' :: encStr s)).flatten ++ ']' :: l))) := by
    simp [encStr, List.append_assoc]
  rw [hshape]
  rw [skipWs_cons_of_not_ws '"' _ (by decide)]
  have henc := parseArrRest_enc t x f l h
  rw [hshape] at henc
  simp [henc]

/-- Encoded string literals have at least the two quote characters. -/
theorem encStr_length (s : String) : 2 ≤ (encStr s).length := by
  simp only [encStr, List.length_cons, List.length_append]
  omega

/-- The comma-separated tail chunks are at least one character each. -/
theorem flatten_comma_length (t : List String) :
    t.length ≤ ((t.map (fun s => ',' :: encStr s)).flatten).length := by
  induction t with
  | nil => simp
  | cons y t ih =>
    simp only [List.map_cons, List.flatten_cons, List.length_append, List.length_cons]
    omega

/-- Mapping the decoder over wrapped strings gives back the strings. -/
theorem jsonToStrAll_map_str (xs : List String) : jsonToStrAll (xs.map Json.str) = some xs := by
  induction xs with
  | nil => rfl
  | cons x xs ih => simp [jsonToStrAll, jsonToStr, ih]

/-- The full decoder inverts the `[]string` encoder. -/
theorem unmarshalStrArr_marshal (xs : List String) :
    unmarshalStrArr (jsonMarshalStrArr xs) = some xs := by
  cases xs with
  | nil => rfl
  | cons x t =>
    rw [unmarshalStrArr, jsonUnmarshal]
    have hdata : (jsonMarshalStrArr (x :: t)).data
        = '[' :: (encStr x ++ ((t.map (fun s => ',' :: encStr s)).flatten ++ ']' :: [])) := by
      simp [jsonMarshalStrArr, List.append_assoc]
    rw [hdata]
    have hlen : t.length + 1 <
        ('[' :: (encStr x ++
          ((t.map (fun s => ',' :: encStr s)).flatten ++ ']' :: []))).length + 1 := by
      have h1 := encStr_length x
      have h2 := flatten_comma_length t
      simp only [List.length_cons, List.length_append]
      omega
    rw [show ('[' :: (encStr x ++
        ((t.map (fun s => ',' :: encStr s)).flatten ++ ']' :: []))).length + 2
        = (('[' :: (encStr x ++
          ((t.map (fun s => ',' :: encStr s)).flatten ++ ']' :: []))).length + 1) + 1 from rfl]
    rw [parseVal_encArr x t _ [] hlen]
    have hmap := jsonToStrAll_map_str (x :: t)
    simp only [List.map_cons] at hmap
    simp [show skipWs ([] : List Char) = [] from rfl, hmap]

/-- C8: for every string that is the JSON encoding of an array of
strings, `parseArguments` returns exactly that array, element for element
and in order (main.go lines 745-751). -/
theorem c8_parseArguments_json_array (xs : List String) :
    parseArguments (jsonMarshalStrArr xs) = xs := by
  rw [parseArguments, unmarshalStrArr_marshal]

/-! ### Cache store round-trip (claim C4) -/

/-- The length-prefixed string encoding decodes back, leaving the rest. -/
theorem decodeStrBytes_enc (s : String) (r : List Nat) :
    decodeStrBytes (encodeStrBytes s ++ r) = some (s, r) := by
  simp only [encodeStrBytes, List.cons_append, decodeStrBytes]
  rw [if_pos (by simp)]
  have htake : ((s.data.map Char.toNat) ++ r).take s.data.length = s.data.map Char.toNat := by
    rw [show s.data.length = (s.data.map Char.toNat).length from by simp]
    exact List.take_left _ _
  have hdrop : ((s.data.map Char.toNat) ++ r).drop s.data.length = r := by
    rw [show s.data.length = (s.data.map Char.toNat).length from by simp]
    exact List.drop_left _ _
  rw [htake, hdrop]
  have hmap : (s.data.map Char.toNat).map Char.ofNat = s.data := by
    rw [List.map_map]
    rw [show (Char.ofNat ∘ Char.toNat) = fun c : Char => c from funext fun c => Char.ofNat_toNat c]
    simp
  rw [hmap]

/-- The metadata encoding decodes back to the metadata record. -/
theorem decodeMeta_enc (m : CacheMeta) : decodeMeta (encodeMeta m) = some m := by
  simp only [encodeMeta, decodeMeta, List.append_assoc]
  rw [decodeStrBytes_enc]
  simp only []
  rw [decodeStrBytes_enc]

/-- A string is never equal to itself extended by a non-empty suffix. -/
theorem ne_self_append (p q : String) (hq : q.data ≠ []) : p ≠ p ++ q := by
  intro h
  have hd : p.data = p.data ++ q.data := by
    rw [← String.data_append, ← h]
  have h2 : q.data = [] := by
    have h3 : p.data ++ q.data = p.data ++ [] := by simpa using hd.symm
    exact List.append_cancel_left h3
  exact hq h2

/-- Appending different suffixes to the same string gives different
strings. -/
theorem append_ne_of_suffix_ne (p a b : String) (hab : a.data ≠ b.data) : p ++ a ≠ p ++ b := by
  intro h
  have hd : p.data ++ a.data = p.data ++ b.data := by
    rw [← String.data_append, ← String.data_append, h]
  exact hab (List.append_cancel_left hd)

/-- The signature path of cache.go: `getSignatureFilePath` and the
`cacheFilePath + ".sig"` used by `saveScriptToCache` denote the same file. -/
theorem sigPathEq (k d : String) :
    getSignatureFilePath k d = getCacheFilePath k d ++ ".sig" := by
  apply String.ext
  simp only [getSignatureFilePath, getCacheFilePath, String.data_append, List.append_assoc]
  norm_num

/-- A remove guarded by an existence probe followed by a write at the same
path is just the write. -/
theorem writeFile_probeRemove (g : Fs) (q : String) (v : List Nat) (b : Prop)
    [Decidable b] :
    writeFile (if b then removeFile g q else g) q v = writeFile g q v := by
  funext p
  by_cases hb : b <;> by_cases hp : p = q <;> simp [writeFile, removeFile, hb, hp]

/-- `saveScriptToCache` is the sequence of the three writes: each
remove-if-present is absorbed by the write that follows it at the same
path (for the signature, via `sigPathEq`). -/
theorem saveScriptToCache_eq_writes (k : String) (s : Script) (sig : List Nat) (now : Nat)
    (d : String) (fs : Fs) :
    saveScriptToCache k s sig now d fs =
      writeFile
        (writeFile (writeFile fs (getCacheFilePath k d) s.contents)
          (getCacheFilePath k d ++ ".meta")
          (encodeMeta { scriptHash := s.hash, scriptName := s.name, cacheTime := now }))
        (getCacheFilePath k d ++ ".sig") sig := by
  simp only [saveScriptToCache, sigPathEq, writeFile_probeRemove]

/-- Pointwise description of the file system after `saveScriptToCache`:
the three artifact paths hold the new payload, metadata and signature,
everything else is untouched. -/
theorem saveScriptToCache_apply (k : String) (s : Script) (sig : List Nat) (now : Nat)
    (d : String) (fs : Fs) (p : String) :
    saveScriptToCache k s sig now d fs p =
      if p = getCacheFilePath k d ++ ".sig" then some sig
      else if p = getCacheFilePath k d ++ ".meta" then
        some (encodeMeta { scriptHash := s.hash, scriptName := s.name, cacheTime := now })
      else if p = getCacheFilePath k d then some s.contents
      else fs p := by
  rw [saveScriptToCache_eq_writes]
  simp only [writeFile]

/-- C4: after `save(K, s, sigma)`, `load(K)` returns exactly the saved
contents together with metadata whose `script_hash` is `s.hash` and whose
`script_name` is `s.name`; the saved signature is what
`load_signature(K)` returns; and a second save for the same key yields
the same file system as saving into the original state, so the first
save's payload, metadata and signature are completely replaced and old
and new artifacts never coexist (cache.go lines 42-178). -/
theorem c4_cache_save_load_roundtrip (key dir : String) (fs : Fs) (s s1 s2 : Script)
    (sig sig1 sig2 : List Nat) (now t1 t2 : Nat) :
    loadScriptFromCache key dir (saveScriptToCache key s sig now dir fs) =
        .ok (s.contents, { scriptHash := s.hash, scriptName := s.name, cacheTime := now }) ∧
      loadSignatureFromCache key dir (saveScriptToCache key s sig now dir fs) = .ok sig ∧
      saveScriptToCache key s2 sig2 t2 dir (saveScriptToCache key s1 sig1 t1 dir fs) =
        saveScriptToCache key s2 sig2 t2 dir fs := by
  have d1 : getCacheFilePath key dir ≠ getCacheFilePath key dir ++ ".sig" :=
    ne_self_append _ _ (by decide)
  have d2 : getCacheFilePath key dir ≠ getCacheFilePath key dir ++ ".meta" :=
    ne_self_append _ _ (by decide)
  have d3 : getCacheFilePath key dir ++ ".meta" ≠ getCacheFilePath key dir ++ ".sig" :=
    append_ne_of_suffix_ne _ _ _ (by decide)
  refine ⟨?_, ?_, ?_⟩
  · simp [loadScriptFromCache, saveScriptToCache_apply, d1, d2, d3, decodeMeta_enc]
  · simp [loadSignatureFromCache, sigPathEq, saveScriptToCache_apply]
  · funext p
    rw [saveScriptToCache_apply, saveScriptToCache_apply, saveScriptToCache_apply]
    split_ifs <;> rfl

/-! ### Resolver invariants (claims C1, C2, C7) -/

/-- Every script the fetch path returns carries the hex SHA-256 of its
contents and is marked as not from the cache. -/
theorem fetchPath_ok (env : ResolveEnv) (n k : String) (s : Script)
    (h : (fetchPath env n k).1 = .ok s) :
    s.hash = hexEncode (env.sha256 s.contents) ∧ s.cached = false := by
  unfold fetchPath at h
  repeat' split at h
  all_goals try simp_all
  all_goals repeat' split at h
  all_goals try simp_all
  all_goals try obtain ⟨-, h⟩ := h
  all_goals exact ⟨rfl, rfl⟩

/-- Every script the cache-validation chain returns carries the hex
SHA-256 recomputed from the cached payload and is marked as cached. -/
theorem cacheLookup_ok (env : ResolveEnv) (s : Script)
    (h : cacheLookup env = some s) :
    s.hash = hexEncode (env.sha256 s.contents) ∧ s.cached = true := by
  unfold cacheLookup at h
  repeat' split at h
  all_goals try simp_all
  all_goals try obtain ⟨-, h⟩ := h
  all_goals try subst h
  all_goals exact ⟨rfl, rfl⟩

/-- C1: every `Script` value successfully returned by `getScript` —
whether taken from the cache or freshly fetched — has its `hash` field
equal to the hex-encoded SHA-256 of its `contents` field (main.go lines
523-539 and 621-639). -/
theorem c1_resolver_hash_invariant (env : ResolveEnv) (scriptName : String) (useCache : Bool)
    (s : Script) (h : (getScript env scriptName useCache).1 = .ok s) :
    s.hash = hexEncode (env.sha256 s.contents) := by
  unfold getScript at h
  split at h
  · split at h
    · simp only [Except.ok.injEq] at h
      subst h
      exact (cacheLookup_ok env _ (by assumption)).1
    · exact (fetchPath_ok env _ _ s h).1
  · exact (fetchPath_ok env _ _ s h).1

/-- Resolver environment of a successful fetch, used by the witnesses. -/
def fetchEnv : ResolveEnv :=
  { goos := "linux", serverURL := "http://h", cacheWindow := 3600, now := 0,
    pathEscape := fun s => s, sha256 := fun _ => [0], verify := fun _ _ => true,
    cacheLoad := none, sigFileExists := false, sigLoad := none, serverHash := none,
    pemOk := true, keyIsRSA := some true,
    fetchResp := some { status := 200, body := [104, 105], sigHeader := "00" },
    saveErr := none }

/-- The script that `fetchEnv` resolves to. -/
def fetchedScript : Script :=
  { name := "s.sh", description := "", contents := [104, 105], hash := "00", cached := false }

/-- Witness for C1: the hash invariant at a concrete successful call. -/
theorem c1_resolver_hash_invariant_witness :
    (getScript fetchEnv "s.sh" false).1 = .ok fetchedScript ∧
      fetchedScript.hash = hexEncode (fetchEnv.sha256 fetchedScript.contents) :=
  ⟨rfl, c1_resolver_hash_invariant fetchEnv "s.sh" false fetchedScript rfl⟩

/-- If the configured key verifies nothing, the cache chain fails. -/
theorem cacheLookup_none_of_verify_false (env : ResolveEnv)
    (hv : ∀ hashed sg, env.verify hashed sg = false) :
    cacheLookup env = none := by
  unfold cacheLookup
  repeat' split
  all_goals simp_all

/-- Under the claim C2 hypotheses the fetch path stops at the signature
check: a verification error and no cache write. -/
theorem fetchPath_verify_fail (env : ResolveEnv) (n k : String) (resp : FetchResp)
    (sig : List Nat) (hresp : env.fetchResp = some resp) (hst : resp.status = 200)
    (hsig : resp.sigHeader ≠ "") (hdec : hexDecode resp.sigHeader = some sig)
    (hpem : env.pemOk = true) (hrsa : env.keyIsRSA = some true)
    (hv : ∀ hashed sg, env.verify hashed sg = false) :
    fetchPath env n k = (.error "Script signature verification failed", []) := by
  unfold fetchPath
  rw [hresp]
  simp [hst, hsig, hdec, hpem, hrsa, hv]

/-- C2: when signature verification of the fetched bytes against the
configured public key fails on the fetch path (a key that rejects every
signature), `getScript` returns the signature-verification error and no
`saved` cache event occurs: no payload, metadata or signature artifact is
written for the key (main.go lines 627-649). -/
theorem c2_signature_failure_not_cached (env : ResolveEnv) (scriptName : String)
    (useCache : Bool) (resp : FetchResp) (sig : List Nat)
    (hresp : env.fetchResp = some resp) (hst : resp.status = 200)
    (hsig : resp.sigHeader ≠ "") (hdec : hexDecode resp.sigHeader = some sig)
    (hpem : env.pemOk = true) (hrsa : env.keyIsRSA = some true)
    (hv : ∀ hashed sg, env.verify hashed sg = false) :
    (getScript env scriptName useCache).1 = .error "Script signature verification failed" ∧
      ∀ k s σ, CacheEvent.saved k s σ ∉ (getScript env scriptName useCache).2 := by
  have hcl := cacheLookup_none_of_verify_false env hv
  have hfp := fun n k => fetchPath_verify_fail env n k resp sig hresp hst hsig hdec hpem hrsa hv
  unfold getScript
  cases useCache <;> simp [hcl, hfp]

/-- Resolver environment with a rejecting key, used by the C2 witness. -/
def rejectEnv : ResolveEnv :=
  { fetchEnv with verify := fun _ _ => false }

/-- Witness for C2 at a concrete environment. -/
theorem c2_signature_failure_not_cached_witness :
    rejectEnv.fetchResp = some { status := 200, body := [104, 105], sigHeader := "00" } ∧
      ((getScript rejectEnv "s.sh" true).1 = .error "Script signature verification failed" ∧
        ∀ k s σ, CacheEvent.saved k s σ ∉ (getScript rejectEnv "s.sh" true).2) :=
  ⟨rfl, c2_signature_failure_not_cached rejectEnv "s.sh" true
    { status := 200, body := [104, 105], sigHeader := "00" } [0] rfl rfl (by decide) rfl rfl rfl
    (fun _ _ => rfl)⟩

/-- C7: with `use_cache = true`, a cache entry that loads and is within
the freshness window, but a hash endpoint that fails, `getScript` does
not return the cached script: it removes the cache entry and runs the
fetch path, whose outcome (success or failure) becomes the outcome of the
whole call, and any script it does return is not from the cache (main.go
lines 504-587). -/
theorem c7_hash_endpoint_failure_refetches (env : ResolveEnv) (scriptName : String)
    (data : List Nat) (meta : CacheMeta)
    (hload : env.cacheLoad = some (data, meta))
    (hfresh : env.now - meta.cacheTime < env.cacheWindow)
    (hhash : env.serverHash = none) :
    getScript env scriptName true =
        ((fetchPath env meta.scriptName
            (getCacheKey env.sha256
              (getScriptURL env.goos env.serverURL scriptName env.pathEscape))).1,
          CacheEvent.removed (getCacheKey env.sha256
              (getScriptURL env.goos env.serverURL scriptName env.pathEscape)) ::
            (fetchPath env meta.scriptName
              (getCacheKey env.sha256
                (getScriptURL env.goos env.serverURL scriptName env.pathEscape))).2) ∧
      ∀ s, (fetchPath env meta.scriptName
          (getCacheKey env.sha256
            (getScriptURL env.goos env.serverURL scriptName env.pathEscape))).1 = .ok s →
        s.cached = false := by
  have hcl : cacheLookup env = none := by
    unfold cacheLookup
    rw [hload]
    simp [hfresh, hhash]
  constructor
  · simp only [getScript]
    rw [hcl, hload]
    simp
  · intro s hs
    exact (fetchPath_ok env _ _ s hs).2

/-- Resolver environment for the C7 witness: fresh cache entry, hash
endpoint down, fetch succeeding. -/
def hashDownEnv : ResolveEnv :=
  { fetchEnv with
    cacheLoad := some ([7], { scriptHash := "h1", scriptName := "c.sh", cacheTime := 0 }),
    sigFileExists := true, sigLoad := some [9], serverHash := none }

/-- Witness for C7 at a concrete environment. -/
theorem c7_hash_endpoint_failure_refetches_witness :
    hashDownEnv.cacheLoad =
        some ([7], { scriptHash := "h1", scriptName := "c.sh", cacheTime := 0 }) ∧
      hashDownEnv.now - (0 : Nat) < hashDownEnv.cacheWindow ∧
      getScript hashDownEnv "s.sh" true =
        ((fetchPath hashDownEnv "c.sh"
            (getCacheKey hashDownEnv.sha256
              (getScriptURL hashDownEnv.goos hashDownEnv.serverURL "s.sh"
                hashDownEnv.pathEscape))).1,
          CacheEvent.removed (getCacheKey hashDownEnv.sha256
              (getScriptURL hashDownEnv.goos hashDownEnv.serverURL "s.sh"
                hashDownEnv.pathEscape)) ::
            (fetchPath hashDownEnv "c.sh"
              (getCacheKey hashDownEnv.sha256
                (getScriptURL hashDownEnv.goos hashDownEnv.serverURL "s.sh"
                  hashDownEnv.pathEscape))).2) :=
  ⟨rfl, by decide,
    (c7_hash_endpoint_failure_refetches hashDownEnv "s.sh" [7]
      { scriptHash := "h1", scriptName := "c.sh", cacheTime := 0 } rfl (by decide) rfl).1⟩

/-! ### Executor behaviour (claims C3, C6, C9) -/

/-- Execution environment of a run that hits the wall-clock deadline:
the context reports expiry and `cmd.Wait` returns the kill error. -/
def timeoutEnv : ExecEnv :=
  { goos := "linux", tmpName := "/tmp/t.sh", deadlineExceeded := true,
    waitErr := some "signal: killed" }

/-- C3 counterexample: at a concrete timed-out execution the executor
does set `status = "timeout"`, the timeout marker and the kill flag, but
it returns the non-nil `cmd.Wait()` error with the result, so the
`scout_exec` generate call returns an error and no row — refuting the
claim that the call does not fail (main.go lines 164-168, 696-704). -/
theorem c3_timeout_counterexample :
    (executeScript timeoutEnv fetchedScript []).1.status = "timeout" ∧
      (executeScript timeoutEnv fetchedScript []).1.errorOut = "Script execution timed out" ∧
      (executeScript timeoutEnv fetchedScript []).2.2.killed = true ∧
      (executeScript timeoutEnv fetchedScript []).2.1 = some "signal: killed" ∧
      scoutQuickExecGenerate fetchEnv timeoutEnv ["s.sh"] [] [] =
        .error "failed to execute script: signal: killed" :=
  ⟨rfl, rfl, rfl, rfl, rfl⟩

/-- C3 amended: on deadline expiry the executor kills the child, sets
`status = "timeout"` and the timeout marker in `error_out`, and returns
that result together with the non-nil wait error; because the error is
non-nil, the generate call consequently fails with a
failed-to-execute error instead of returning a row with
`status = "timeout"` (main.go lines 164-168, 657-723). -/
theorem c3_timeout_amended (ee : ExecEnv) (e : String)
    (hp1 : ee.stdoutPipeErr = none) (hp2 : ee.stderrPipeErr = none)
    (hst : ee.startErr = none) (hdl : ee.deadlineExceeded = true)
    (hwait : ee.waitErr = some e) :
    (∀ res : ExecutionResult,
        startCommandExecution ee res =
          ({ res with errorOut := "Script execution timed out", status := "timeout" },
            some e, true)) ∧
      ∀ (env : ResolveEnv) (scriptName : String) (argsCs cacheCs : List String) (s : Script),
        (getScript env scriptName (processBoolConstraint (cacheCs.headD "false"))).1 = .ok s →
        ee.goos = "linux" → isShellScript s.name = true →
        ee.tmpCreateErr = none → ee.tmpWriteErr = none → ee.chmodErr = none →
        scoutQuickExecGenerate env ee [scriptName] argsCs cacheCs =
          .error ("failed to execute script: " ++ e) := by
  have hcmd : ∀ res : ExecutionResult,
      startCommandExecution ee res =
        ({ res with errorOut := "Script execution timed out", status := "timeout" },
          some e, true) := by
    intro res
    unfold startCommandExecution
    rw [hp1, hp2, hst, hdl, hwait]
    simp
  refine ⟨hcmd, ?_⟩
  intro env scriptName argsCs cacheCs s hget hgoos hsh htmp hwrite hchmod
  have hexec : (executeScript ee s argsCs).2.1 = some e := by
    unfold executeScript
    rw [htmp, hwrite, hgoos]
    simp [hsh, hchmod, hcmd]
  have hget2 :
      (getScript env scriptName (processBoolConstraint (cacheCs.head?.getD "false"))).1 =
        Except.ok s := by
    simpa using hget
  simp [scoutQuickExecGenerate, generateExecResult, hget2, hexec]

/-- Execution environment of a Windows host with a batch script. -/
def winBatchEnv : ExecEnv := { goos := "windows", tmpName := "/tmp/t.bat" }

/-- A batch script resolved for the C6 counterexample. -/
def batchScript : Script := { name := "x.bat", contents := [104], hash := "00" }

/-- C6 counterexample: on the Windows batch path the spawned argument
vector carries the raw constraint list, not the output of the argument
parser, refuting the claim that the normalization runs on the Windows
invocation paths as well (main.go lines 411-416 versus 438-444). -/
theorem c6_windows_args_counterexample :
    (executeScript winBatchEnv batchScript ["a b"]).2.2.spawned =
        some { prog := "cmd.exe", argv := ["/C", "/tmp/t.bat", "a b"] } ∧
      parseArguments (String.intercalate " " ["a b"]) = ["a", "b"] ∧
      (["/C", "/tmp/t.bat", "a b"] : List String) ≠
        ["/C", "/tmp/t.bat"] ++ parseArguments (String.intercalate " " ["a b"]) :=
  ⟨rfl, rfl, by decide⟩

/-- C6 amended: the argument parser output is the vector passed to the
interpreter only on the darwin/linux paths; the Windows paths
(powershell, batch, vbscript, and python — the latter whenever the
embedded interpreter is successfully created, i.e. PythonCmd does not
error) pass the raw constraint list unmodified (main.go lines
392-454). -/
theorem c6_argument_normalization_amended (ee : ExecEnv) (script : Script)
    (args : List String) (htmp : ee.tmpCreateErr = none) (hwrite : ee.tmpWriteErr = none)
    (hchmod : ee.chmodErr = none) :
    ((ee.goos = "darwin" ∨ ee.goos = "linux") → isShellScript script.name = true →
        (executeScript ee script args).2.2.spawned =
          some { prog := "/bin/bash",
                 argv := ee.tmpName :: parseArguments (String.intercalate " " args) }) ∧
      ((ee.goos = "darwin" ∨ ee.goos = "linux") → isShellScript script.name = false →
        isPythonScript script.name = true →
        (executeScript ee script args).2.2.spawned =
          some { prog := "python3",
                 argv := ee.tmpName :: parseArguments (String.intercalate " " args) }) ∧
      (ee.goos = "windows" → isPowerShellScript script.name = true →
        (executeScript ee script args).2.2.spawned =
          some { prog := "powershell.exe",
                 argv := ["-NoProfile", "-ExecutionPolicy", "Bypass", "-NonInteractive",
                   "-File", ee.tmpName] ++ args }) ∧
      (ee.goos = "windows" → isPowerShellScript script.name = false →
        isBatchScript script.name = true →
        (executeScript ee script args).2.2.spawned =
          some { prog := "cmd.exe", argv := ["/C", ee.tmpName] ++ args }) ∧
      (ee.goos = "windows" → isPowerShellScript script.name = false →
        isBatchScript script.name = false → isVBScript script.name = true →
        (executeScript ee script args).2.2.spawned =
          some { prog := "cscript.exe", argv := [ee.tmpName] ++ args }) ∧
      (ee.goos = "windows" → isPowerShellScript script.name = false →
        isBatchScript script.name = false → isVBScript script.name = false →
        isPythonScript script.name = true → ee.pyCmdOk = true →
        (executeScript ee script args).2.2.spawned =
          some { prog := "embedded-python", argv := [ee.tmpName] ++ args }) := by
  refine ⟨?_, ?_, ?_, ?_, ?_, ?_⟩
  · intro hgoos hsh
    unfold executeScript
    rw [htmp, hwrite]
    have hw : ee.goos ≠ "windows" := by rcases hgoos with h | h <;> simp [h]
    rw [if_neg hw, hchmod]
    simp [hw, hgoos, hsh]
  · intro hgoos hsh hpy
    unfold executeScript
    rw [htmp, hwrite]
    have hw : ee.goos ≠ "windows" := by rcases hgoos with h | h <;> simp [h]
    rw [if_neg hw, hchmod]
    simp [hw, hgoos, hsh, hpy]
  · intro hgoos hps
    unfold executeScript
    rw [htmp, hwrite, hgoos]
    simp [hps]
    try (cases ee.psExec.err <;> simp)
  · intro hgoos hps hbat
    unfold executeScript
    rw [htmp, hwrite, hgoos]
    simp [hps, hbat]
  · intro hgoos hps hbat hvbs
    unfold executeScript
    rw [htmp, hwrite, hgoos]
    simp [hps, hbat, hvbs]
  · intro hgoos hps hbat hvbs hpy hpok
    unfold executeScript
    rw [htmp, hwrite, hgoos]
    cases hre : ee.pyRunErr <;> simp [hps, hbat, hvbs, hpy, hpok, hre]

/-- Witness for C6 amended: the darwin/linux shell clause at a concrete
input where parsing changes the vector. -/
theorem c6_argument_normalization_amended_witness :
    (executeScript { goos := "linux", tmpName := "/tmp/t.sh" }
          { name := "x.sh", contents := [104], hash := "00" } ["a b"]).2.2.spawned =
      some { prog := "/bin/bash",
             argv := "/tmp/t.sh" :: parseArguments (String.intercalate " " ["a b"]) } :=
  (c6_argument_normalization_amended { goos := "linux", tmpName := "/tmp/t.sh" }
    { name := "x.sh", contents := [104], hash := "00" } ["a b"] rfl rfl rfl).1
    (Or.inr rfl) rfl

/-- Empty console output projects to zero rows without an error. -/
theorem projectRows_empty_console (result : ExecutionResult) (useCache : String)
    (hco : result.consoleOut = "") : projectRows result useCache = .ok [] := by
  unfold projectRows
  rw [hco]
  rfl

/-- Execution environment of a plain Unix host. -/
def unixEnv : ExecEnv := { goos := "linux", tmpName := "/tmp/t" }

/-- The unsupported `.txt` script fetched by `fetchEnv`. -/
def textScript : Script :=
  { name := "x.txt", description := "", contents := [104, 105], hash := "00", cached := false }

/-- C9 counterexample: executing a `.txt` script on linux spawns no child
(that part of the claim holds), but the unsupported-kind failure does not
surface as the call's failure: `executeScript` returns a nil error (the
stale outer `err` of main.go line 448), so the generate call returns zero
rows successfully instead of an error (main.go lines 164-168, 433-454). -/
theorem c9_unsupported_counterexample :
    (executeScript unixEnv textScript []).2.2.spawned = none ∧
      (executeScript unixEnv textScript []).1.status = "failed" ∧
      (executeScript unixEnv textScript []).2.1 = none ∧
      scoutQuickExecGenerate fetchEnv unixEnv ["x.txt"] [] [] = .ok [] :=
  ⟨rfl, rfl, rfl, rfl⟩

/-- C9 amended: for every script kind unsupported on the host (and every
unsupported host) no child process is spawned and the result is marked
`"failed"` with empty console output — but the returned error is nil, so
the generate call does not fail: it returns zero rows (main.go lines
129-245, 324-463). -/
theorem c9_unsupported_no_spawn_amended (ee : ExecEnv) (htmp : ee.tmpCreateErr = none)
    (hwrite : ee.tmpWriteErr = none) (hchmod : ee.chmodErr = none) :
    (∀ (script : Script) (args : List String),
        unsupportedCombo ee.goos script.name = true →
        (executeScript ee script args).2.2.spawned = none ∧
          (executeScript ee script args).2.1 = none ∧
          (executeScript ee script args).1.status = "failed" ∧
          (executeScript ee script args).1.consoleOut = "") ∧
      ∀ (env : ResolveEnv) (scriptName : String) (argsCs cacheCs : List String) (s : Script),
        (getScript env scriptName (processBoolConstraint (cacheCs.headD "false"))).1 = .ok s →
        unsupportedCombo ee.goos s.name = true →
        scoutQuickExecGenerate env ee [scriptName] argsCs cacheCs = .ok [] := by
  have hexecAll : ∀ (script : Script) (args : List String),
      unsupportedCombo ee.goos script.name = true →
      (executeScript ee script args).2.2.spawned = none ∧
        (executeScript ee script args).2.1 = none ∧
        (executeScript ee script args).1.status = "failed" ∧
        (executeScript ee script args).1.consoleOut = "" := by
    intro script args hu
    unfold unsupportedCombo at hu
    unfold executeScript
    rw [htmp, hwrite]
    by_cases hw : ee.goos = "windows"
    · rw [if_pos hw] at hu
      simp only [Bool.not_eq_true', Bool.or_eq_false_iff] at hu
      obtain ⟨⟨⟨h1, h2⟩, h3⟩, h4⟩ := hu
      simp [hw, h1, h2, h3, h4]
    · rw [if_neg hw] at hu
      by_cases hdl : ee.goos = "darwin" ∨ ee.goos = "linux"
      · rw [if_pos hdl] at hu
        simp only [Bool.not_eq_true', Bool.or_eq_false_iff] at hu
        obtain ⟨h1, h2⟩ := hu
        simp [hw, hdl, hchmod, h1, h2]
      · rw [if_neg hdl] at hu
        simp [hw, hdl, hchmod]
  refine ⟨hexecAll, ?_⟩
  intro env scriptName argsCs cacheCs s hget hu
  obtain ⟨hsp, herr, hst, hco⟩ := hexecAll s argsCs hu
  have hget2 :
      (getScript env scriptName (processBoolConstraint (cacheCs.head?.getD "false"))).1 =
        Except.ok s := by
    simpa using hget
  have hproj : projectRows
      { jobID := (executeScript ee s argsCs).1.jobID,
        scriptName := (executeScript ee s argsCs).1.scriptName,
        args := (executeScript ee s argsCs).1.args,
        consoleOut := (executeScript ee s argsCs).1.consoleOut,
        errorOut := (executeScript ee s argsCs).1.errorOut,
        executionTime := (executeScript ee s argsCs).1.executionTime,
        duration := (executeScript ee s argsCs).1.duration,
        scriptHash := (executeScript ee s argsCs).1.scriptHash,
        fromCache := if s.cached = true then "true" else "false",
        cacheEnabled := (executeScript ee s argsCs).1.cacheEnabled,
        status := (executeScript ee s argsCs).1.status }
      (cacheCs.head?.getD "false") = .ok [] :=
    projectRows_empty_console _ _ hco
  simp [scoutQuickExecGenerate, generateExecResult, hget2, herr, hproj]

/-- Witness for C3 amended at a concrete timed-out run. -/
theorem c3_timeout_amended_witness :
    timeoutEnv.deadlineExceeded = true ∧
      timeoutEnv.waitErr = some "signal: killed" ∧
      scoutQuickExecGenerate fetchEnv timeoutEnv ["s.sh"] [] [] =
        .error ("failed to execute script: " ++ "signal: killed") :=
  ⟨rfl, rfl,
    (c3_timeout_amended timeoutEnv "signal: killed" rfl rfl rfl rfl rfl).2 fetchEnv "s.sh"
      [] [] fetchedScript rfl rfl rfl rfl rfl rfl⟩

/-- Witness for C9 amended at a concrete unsupported script. -/
theorem c9_unsupported_no_spawn_amended_witness :
    unsupportedCombo unixEnv.goos textScript.name = true ∧
      scoutQuickExecGenerate fetchEnv unixEnv ["x.txt"] [] [] = .ok [] :=
  ⟨rfl,
    (c9_unsupported_no_spawn_amended unixEnv rfl rfl rfl).2 fetchEnv "x.txt" [] []
      textScript rfl rfl⟩

/-! ### Row projection (claims C5, C10) -/

/-- The split function never yields an empty list of pieces. -/
theorem splitOnChar_ne_nil (sep : Char) (l : List Char) : splitOnChar sep l ≠ [] := by
  cases l with
  | nil =>
    rw [show splitOnChar sep [] = [[]] from by rw [splitOnChar]]
    exact List.cons_ne_nil _ _
  | cons c r =>
    rw [splitOnChar]
    split
    · simp
    · split <;> simp

/-- There is always at least one console line. -/
theorem linesOf_ne_nil (s : String) : linesOf s ≠ [] := by
  unfold linesOf
  simp [splitOnChar_ne_nil]

/-- The JSON-mode row loop is a `filterMap` over the non-blank lines. -/
theorem foldl_filterMap_rows (f : String → Option Row) (ls : List String) (acc : List Row) :
    ls.foldl
        (fun acc line =>
          if isBlankStr line then acc
          else
            match f line with
            | none => acc
            | some row => acc ++ [row]) acc =
      acc ++ (ls.filter (fun l => !isBlankStr l)).filterMap f := by
  induction ls generalizing acc with
  | nil => simp
  | cons x xs ih =>
    simp only [List.foldl_cons, List.filter_cons]
    by_cases hx : isBlankStr x
    · simp [hx, ih]
    · cases hfx : f x <;> simp [hx, hfx, ih]

/-- The text-mode row loop is a `map` over the non-blank lines. -/
theorem foldl_map_rows (g : String → Row) (ls : List String) (acc : List Row) :
    ls.foldl (fun acc line => if isBlankStr line then acc else acc ++ [g line]) acc =
      acc ++ (ls.filter (fun l => !isBlankStr l)).map g := by
  induction ls generalizing acc with
  | nil => simp
  | cons x xs ih =>
    simp only [List.foldl_cons, List.filter_cons]
    by_cases hx : isBlankStr x <;> simp [hx, ih]

/-- Closed form of the row projector: mode from the first line, one row
per surviving non-blank line, never an error. -/
theorem projectRows_eq (result : ExecutionResult) (useCache : String) :
    projectRows result useCache =
      .ok (match unmarshalMapAny ((linesOf result.consoleOut).headD "") with
        | some firstLineData =>
          ((linesOf result.consoleOut).filter (fun l => !isBlankStr l)).filterMap
            (jsonRowOf result useCache (firstLineData.map (fun kv => kv.1)))
        | none =>
          ((linesOf result.consoleOut).filter (fun l => !isBlankStr l)).map
            (textRow result useCache)) := by
  unfold projectRows
  obtain ⟨first, rest, hfr⟩ : ∃ a t, linesOf result.consoleOut = a :: t := by
    cases h : linesOf result.consoleOut with
    | nil => exact absurd h (linesOf_ne_nil _)
    | cons a t => exact ⟨a, t, rfl⟩
  rw [hfr]
  simp only [List.headD_cons]
  cases h1 : unmarshalMapAny first with
  | none =>
    simp only []
    rw [foldl_map_rows (textRow result useCache) (first :: rest) []]
    simp
  | some d =>
    simp only []
    rw [foldl_filterMap_rows (jsonRowOf result useCache (d.map (fun kv => kv.1)))
      (first :: rest) []]
    simp

/-- C5 amended: the projector selects JSON mode iff the *first* line of
`console_out` (line index 0 — not the first non-empty line) unmarshals
into `map[string]interface{}` (a JSON object, or JSON null); in JSON mode
every non-blank line (including the first) that unmarshals into
`map[string]string` yields exactly one row merging the fixed fields with
that line's fields, lines that fail to unmarshal are dropped, and the
call never fails; otherwise every non-blank line yields one plain-text
row (main.go lines 176-244). -/
theorem c5_row_projection_amended (result : ExecutionResult) (useCache : String) :
    projectRows result useCache =
      .ok (if selectsJsonMode result.consoleOut then
          ((linesOf result.consoleOut).filter (fun l => !isBlankStr l)).filterMap
            (jsonRowOf result useCache
              (((unmarshalMapAny ((linesOf result.consoleOut).headD "")).getD []).map
                (fun kv => kv.1)))
        else
          ((linesOf result.consoleOut).filter (fun l => !isBlankStr l)).map
            (textRow result useCache)) := by
  rw [projectRows_eq]
  unfold selectsJsonMode
  cases h : unmarshalMapAny ((linesOf result.consoleOut).headD "") <;> simp [h]

/-- C5 counterexample: on console output `"\n{"a":"1"}"` the first
non-empty (after trimming) line is a JSON object, yet the projector is in
plain-text mode — because the source tests `consoleLines[0]`, the raw
first line, which is empty — and the generate call emits a text row, not
a JSON row (main.go lines 185-187). -/
theorem c5_json_mode_counterexample :
    firstNonEmptyLine "\n\x7b\"a\":\"1\"\x7d" = some "\x7b\"a\":\"1\"\x7d" ∧
      parsesAsJsonObject "\x7b\"a\":\"1\"\x7d" = true ∧
      selectsJsonMode "\n\x7b\"a\":\"1\"\x7d" = false ∧
      projectRows { consoleOut := "\n\x7b\"a\":\"1\"\x7d" } "false" =
        .ok [textRow { consoleOut := "\n\x7b\"a\":\"1\"\x7d" } "false"
          "\x7b\"a\":\"1\"\x7d"] :=
  ⟨rfl, rfl, rfl, rfl⟩

/-- Finding a value under `key` is unaffected by replacing the value
stored under a different key. -/
theorem find?_val_map_set (r : List (String × String)) (k2 v key : String) (h : k2 ≠ key) :
    ((r.map (fun kv => if kv.1 == k2 then (k2, v) else kv)).find?
        (fun kv => kv.1 == key)).map (fun kv => kv.2) =
      (r.find? (fun kv => kv.1 == key)).map (fun kv => kv.2) := by
  induction r with
  | nil => rfl
  | cons a r ih =>
    simp only [List.map_cons]
    by_cases ha : (a.1 == k2) = true
    · rw [if_pos ha]
      have ha2 : a.1 = k2 := by simpa using ha
      have h1 : (k2 == key) = false := beq_eq_false_iff_ne.mpr h
      have h2 : (a.1 == key) = false := by
        rw [ha2]
        exact beq_eq_false_iff_ne.mpr h
      simp only [List.find?, h1, h2]
      exact ih
    · rw [if_neg ha]
      by_cases hk : (a.1 == key) = true
      · simp only [List.find?, hk]
      · have hk2 : (a.1 == key) = false := by simpa using hk
        simp only [List.find?, hk2]
        exact ih

/-- Finding a value under `key` is unaffected by appending an entry with
a different key. -/
theorem find?_val_append_single (r : List (String × String)) (k2 v key : String)
    (h : k2 ≠ key) :
    ((r ++ [(k2, v)]).find? (fun kv => kv.1 == key)).map (fun kv => kv.2) =
      (r.find? (fun kv => kv.1 == key)).map (fun kv => kv.2) := by
  induction r with
  | nil =>
    simp only [List.nil_append]
    have h1 : (k2 == key) = false := beq_eq_false_iff_ne.mpr h
    simp [List.find?, h1]
  | cons a r ih =>
    simp only [List.cons_append]
    by_cases hk : (a.1 == key) = true
    · simp only [List.find?, hk]
    · have hk2 : (a.1 == key) = false := by simpa using hk
      simp only [List.find?, hk2]
      exact ih

/-- Row update at one key does not change the value read at another. -/
theorem rowGet_rowSet_ne (r : Row) (k2 v key : String) (h : k2 ≠ key) :
    rowGet (rowSet r k2 v) key = rowGet r key := by
  unfold rowGet rowSet setAssoc
  split
  · exact find?_val_map_set r k2 v key h
  · exact find?_val_append_single r k2 v key h

/-- Writing a batch of entries whose keys all differ from `key` does not
change the value read at `key`. -/
theorem rowGet_foldl_rowSet (kvs : List (String × String)) (r0 : Row) (key : String)
    (h : ∀ kv ∈ kvs, kv.1 ≠ key) :
    rowGet (kvs.foldl (fun r kv => rowSet r kv.1 kv.2) r0) key = rowGet r0 key := by
  induction kvs generalizing r0 with
  | nil => rfl
  | cons a kvs ih =>
    simp only [List.foldl_cons]
    rw [ih _ (fun kv hkv => h kv (List.mem_cons_of_mem _ hkv))]
    exact rowGet_rowSet_ne r0 a.1 a.2 key (h a (List.mem_cons_self _ _))

/-- A key with no lookup entry differs from every stored key. -/
theorem lookup_eq_none_keys (kvs : List (String × String)) (key : String)
    (h : kvs.lookup key = none) : ∀ kv ∈ kvs, kv.1 ≠ key := by
  induction kvs with
  | nil => simp
  | cons a kvs ih =>
    obtain ⟨k1, v1⟩ := a
    simp only [List.lookup] at h
    split at h
    · exact absurd h (by simp)
    · intro kv hkv
      rcases List.mem_cons.mp hkv with rfl | hmem
      · intro hk
        simp only [hk] at *
        simp_all
      · exact ih h kv hmem

/-- The `from_cache` string returned by the first half of the generate
call is the verbatim head of the constraint list (default `"false"`). -/
theorem generateExecResult_ok_useCache (env : ResolveEnv) (ee : ExecEnv)
    (scriptNames argsCs cacheCs : List String) (res : ExecutionResult) (uc : String)
    (h : generateExecResult env ee scriptNames argsCs cacheCs = .ok (res, uc)) :
    uc = cacheCs.headD "false" := by
  unfold generateExecResult at h
  repeat' split at h
  all_goals try simp_all
  all_goals repeat' split at h
  all_goals simp_all

/-- C10 amended: every row returned by the `scout_exec` generate call
carries the caller-supplied `from_cache` constraint string verbatim
(default `"false"`), independent of whether the executed script actually
came from the cache — except that in JSON mode a line whose object itself
contains a `from_cache` key overwrites the column; rows built from lines
without such a key always show the constraint string (main.go lines
143-148, 206-241). -/
theorem c10_from_cache_column (env : ResolveEnv) (ee : ExecEnv)
    (scriptNames argsCs cacheCs : List String) (res : ExecutionResult) (uc : String)
    (rows : List Row)
    (hgen : generateExecResult env ee scriptNames argsCs cacheCs = .ok (res, uc))
    (hnol : ∀ l ∈ linesOf res.consoleOut, ∀ kvs, unmarshalMapStr l = some kvs →
        kvs.lookup "from_cache" = none)
    (hrows : scoutQuickExecGenerate env ee scriptNames argsCs cacheCs = .ok rows) :
    uc = cacheCs.headD "false" ∧
      ∀ r ∈ rows, rowGet r "from_cache" = some (cacheCs.headD "false") := by
  have huc := generateExecResult_ok_useCache env ee scriptNames argsCs cacheCs res uc hgen
  refine ⟨huc, ?_⟩
  rw [← huc]
  have hproj : projectRows res uc = .ok rows := by
    unfold scoutQuickExecGenerate at hrows
    rw [hgen] at hrows
    exact hrows
  rw [projectRows_eq] at hproj
  injection hproj with h2
  intro r hr
  rw [← h2] at hr
  cases hm : unmarshalMapAny ((linesOf res.consoleOut).headD "") with
  | none =>
    rw [hm] at hr
    simp only [] at hr
    obtain ⟨l, hl, rfl⟩ := List.mem_map.mp hr
    rfl
  | some d =>
    rw [hm] at hr
    simp only [] at hr
    obtain ⟨l, hl, hjr⟩ := List.mem_filterMap.mp hr
    unfold jsonRowOf at hjr
    cases hms : unmarshalMapStr l with
    | none =>
      rw [hms] at hjr
      cases hjr
    | some kvs =>
      rw [hms] at hjr
      simp only [Option.some.injEq] at hjr
      subst hjr
      have hmem : l ∈ linesOf res.consoleOut := (List.mem_filter.mp hl).1
      have hkeys := lookup_eq_none_keys kvs "from_cache" (hnol l hmem kvs hms)
      rw [rowGet_foldl_rowSet kvs _ "from_cache" hkeys]
      rfl

/-- Execution environment emitting a JSON line that carries its own
`from_cache` key. -/
def overrideEnv : ExecEnv :=
  { goos := "linux", tmpName := "/tmp/t.sh",
    stdoutData := "\x7b\"from_cache\":\"X\"\x7d" }

/-- The single row produced by `overrideEnv` under constraint `"1"`. -/
def overrideRow : Row :=
  [("script_name", "c.sh"), ("args", ""), ("from_cache", "X"), ("status", "completed"),
    ("columns", "from_cache")]

/-- C10 counterexample: with `from_cache` constraint `"1"`, a script
whose JSON output line contains a `from_cache` key produces a row whose
`from_cache` column is the script's value `"X"`, not the constraint
string `"1"` — the per-line field write overwrites the fixed column
(main.go lines 206-217). -/
theorem c10_from_cache_counterexample :
    scoutQuickExecGenerate hashDownEnv overrideEnv ["s.sh"] [] ["1"] = .ok [overrideRow] ∧
      rowGet overrideRow "from_cache" = some "X" ∧ ("X" : String) ≠ "1" :=
  ⟨rfl, rfl, by decide⟩

/-- Execution environment with benign plain-text output. -/
def helloEnv : ExecEnv := { goos := "linux", tmpName := "/tmp/t.sh", stdoutData := "hello" }

/-- The execution result reaching the projector in the C10 witness. -/
def helloRes : ExecutionResult :=
  { jobID := "quick_exec", scriptName := "c.sh", args := "", consoleOut := "hello",
    errorOut := "", executionTime := "", duration := "", scriptHash := "00",
    fromCache := "false", cacheEnabled := "", status := "completed" }

/-- The single row produced by `helloEnv` under constraint `"1"`. -/
def helloRow : Row :=
  [("script_name", "c.sh"), ("args", ""), ("console_out", "hello"), ("error_out", ""),
    ("execution_time", ""), ("duration", ""), ("script_hash", "00"), ("from_cache", "1"),
    ("status", "completed"), ("columns", "console_out")]

/-- Witness for C10 amended at a concrete run without an overriding key. -/
theorem c10_from_cache_column_witness :
    generateExecResult hashDownEnv helloEnv ["s.sh"] [] ["1"] = .ok (helloRes, "1") ∧
      scoutQuickExecGenerate hashDownEnv helloEnv ["s.sh"] [] ["1"] = .ok [helloRow] ∧
      ∀ r ∈ [helloRow], rowGet r "from_cache" = some (["1"].headD "false") :=
  ⟨rfl, rfl,
    (c10_from_cache_column hashDownEnv helloEnv ["s.sh"] [] ["1"] helloRes "1" [helloRow]
      rfl
      (by
        intro l hl kvs hk
        have hlines : linesOf helloRes.consoleOut = ["hello"] := rfl
        rw [hlines] at hl
        have hl2 : l = "hello" := by simpa using hl
        subst hl2
        rw [show unmarshalMapStr "hello" = none from rfl] at hk
        exact absurd hk (by simp))
      rfl).2⟩

end Scout
